import Mathlib

/-!
Verification of the Binance funding-rate hedge bot (`src/main.py`) against its
natural-language specification.

The embedding is shallow: Python dicts holding request parameters become
ordered association lists `List (String × String)` (CPython dicts preserve
insertion order, which is what the signing logic relies on); JSON decimal
fields (`positionAmt`, `lastFundingRate`, `origQty`) become exact rationals
`ℚ`; Python's `str()` rendering of a float is kept abstract as a parameter
`floatStr : ℚ → String` since no checked property depends on the digits
produced; absent dict keys become `Option`; a raised Python exception becomes
`Except PyErr`; and the network (the `requests` library, out of scope per the
spec) becomes an oracle function passed in, indexed by call position so that
distinct calls may see distinct responses.  HMAC-SHA256 is implemented
concretely below (FIPS 180-4 / RFC 2104) over byte lists, with 32-bit words as
`Nat` reduced mod 2^32.
-/

namespace FundingHedge

/-! ## SHA-256 (FIPS 180-4) over byte lists -/

/-- Truncate to a 32-bit word. -/
def w32 (x : Nat) : Nat := x % 4294967296

/-- Right-rotation of a 32-bit word. -/
def rotr (n x : Nat) : Nat := w32 (x / 2 ^ n + x % 2 ^ n * 2 ^ (32 - n))

/-- Logical right shift. -/
def shr (n x : Nat) : Nat := x / 2 ^ n

def bsig0 (x : Nat) : Nat := (rotr 2 x) ^^^ (rotr 13 x) ^^^ (rotr 22 x)

def bsig1 (x : Nat) : Nat := (rotr 6 x) ^^^ (rotr 11 x) ^^^ (rotr 25 x)

def ssig0 (x : Nat) : Nat := (rotr 7 x) ^^^ (rotr 18 x) ^^^ (shr 3 x)

def ssig1 (x : Nat) : Nat := (rotr 17 x) ^^^ (rotr 19 x) ^^^ (shr 10 x)

def chF (x y z : Nat) : Nat := (x &&& y) ^^^ ((x ^^^ 4294967295) &&& z)

def majF (x y z : Nat) : Nat := (x &&& y) ^^^ (x &&& z) ^^^ (y &&& z)

/-- The 64 SHA-256 round constants. -/
def sha256K : List Nat :=
  [1116352408, 1899447441, 3049323471, 3921009573, 961987163,
   1508970993, 2453635748, 2870763221, 3624381080, 310598401,
   607225278, 1426881987, 1925078388, 2162078206, 2614888103,
   3248222580, 3835390401, 4022224774, 264347078, 604807628,
   770255983, 1249150122, 1555081692, 1996064986, 2554220882,
   2821834349, 2952996808, 3210313671, 3336571891, 3584528711,
   113926993, 338241895, 666307205, 773529912, 1294757372,
   1396182291, 1695183700, 1986661051, 2177026350, 2456956037,
   2730485921, 2820302411, 3259730800, 3345764771, 3516065817,
   3600352804, 4094571909, 275423344, 430227734, 506948616,
   659060556, 883997877, 958139571, 1322822218, 1537002063,
   1747873779, 1955562222, 2024104815, 2227730452, 2361852424,
   2428436474, 2756734187, 3204031479, 3329325298]

/-- The initial SHA-256 hash state. -/
def sha256H0 : List Nat :=
  [1779033703, 3144134277, 1013904242, 2773480762,
   1359893119, 2600822924, 528734635, 1541459225]

/-- Big-endian byte rendering of `x`, `n` bytes wide. -/
def beBytes : Nat → Nat → List Nat
  | 0, _ => []
  | n + 1, x => beBytes n (x / 256) ++ [x % 256]

/-- Pad a message per FIPS 180-4: append `0x80`, zero bytes up to 56 mod 64,
then the bit length as 8 big-endian bytes. -/
def padMessage (msg : List Nat) : List Nat :=
  let L := msg.length
  msg ++ [128] ++ List.replicate ((120 - (L + 1) % 64) % 64) 0
      ++ beBytes 8 (8 * L % 2 ^ 64)

/-- Group bytes into big-endian 32-bit words. -/
def bytesToWords : List Nat → List Nat
  | a :: b :: c :: d :: rest =>
      (a * 16777216 + b * 65536 + c * 256 + d) :: bytesToWords rest
  | _ => []

/-- Extend a 16-word schedule by `n` more words. -/
def extendSchedule : Nat → List Nat → List Nat
  | 0, ws => ws
  | n + 1, ws =>
      let m := ws.length
      extendSchedule n (ws ++ [w32 (ssig1 (ws.getD (m - 2) 0) + ws.getD (m - 7) 0
        + ssig0 (ws.getD (m - 15) 0) + ws.getD (m - 16) 0)])

/-- One SHA-256 round: state is the 8-word list `[a,b,c,d,e,f,g,h]`. -/
def roundStep (st : List Nat) (k : Nat) (w : Nat) : List Nat :=
  let a := st.getD 0 0
  let b := st.getD 1 0
  let c := st.getD 2 0
  let d := st.getD 3 0
  let e := st.getD 4 0
  let f := st.getD 5 0
  let g := st.getD 6 0
  let h := st.getD 7 0
  let t1 := w32 (h + bsig1 e + chF e f g + k + w)
  let t2 := w32 (bsig0 a + majF a b c)
  [w32 (t1 + t2), a, b, c, w32 (d + t1), e, f, g]

/-- Compress one 64-byte block into the hash state. -/
def compressBlock (hs : List Nat) (block : List Nat) : List Nat :=
  let ws := extendSchedule 48 (bytesToWords block)
  let fin := (sha256K.zip ws).foldl (fun st kw => roundStep st kw.1 kw.2) hs
  (hs.zip fin).map (fun p => w32 (p.1 + p.2))

/-- Fold the compression function over consecutive 64-byte blocks. -/
def sha256Blocks (hs : List Nat) (l : List Nat) : List Nat :=
  if h : l = [] then hs
  else sha256Blocks (compressBlock hs (l.take 64)) (l.drop 64)
  termination_by l.length
  decreasing_by
    simp only [List.length_drop]
    exact Nat.sub_lt (List.length_pos.mpr h) (by omega)

/-- SHA-256 of a byte list, as 32 digest bytes. -/
def sha256 (msg : List Nat) : List Nat :=
  (sha256Blocks sha256H0 (padMessage msg)).foldr (fun w acc => beBytes 4 w ++ acc) []

/-! ## HMAC-SHA256 (RFC 2104) and hex encoding -/

/-- HMAC-SHA256 keyed by `key` over `msg` (block size 64). -/
def hmacSha256 (key msg : List Nat) : List Nat :=
  let k0 := if 64 < key.length then sha256 key else key
  let k1 := k0 ++ List.replicate (64 - k0.length) 0
  sha256 ((k1.map (fun b => b ^^^ 0x5c)) ++ sha256 ((k1.map (fun b => b ^^^ 0x36)) ++ msg))

/-- Lowercase hex digit. -/
def hexChar (n : Nat) : Char := if n < 10 then Char.ofNat (48 + n) else Char.ofNat (87 + n)

/-- Lowercase hex string of a byte list, two digits per byte — Python's
`hexdigest()`. -/
def hexDigest (bs : List Nat) : String :=
  String.mk (bs.flatMap (fun b => [hexChar (b / 16), hexChar (b % 16)]))

/-- UTF-8 bytes of a string — Python's `.encode('utf-8')`. -/
def strBytes (s : String) : List Nat := s.toUTF8.toList.map (fun b => b.toNat)

/-! ## Request signing (`BinanceBot._generate_signature`) -/

/-- The query string the bot signs: `"&".join(f"{key}={value}" ...)` over the
dict's pairs in insertion order. -/
def queryString (params : List (String × String)) : String :=
  String.intercalate "&" (params.map (fun kv => kv.1 ++ "=" ++ kv.2))

/-- `BinanceBot._generate_signature`: hex HMAC-SHA256 of the query string,
keyed by the UTF-8 bytes of the API secret. -/
def generate_signature (secret : String) (params : List (String × String)) : String :=
  hexDigest (hmacSha256 (strBytes secret) (strBytes (queryString params)))

/-! ## Data model

JSON objects exchanged with the API, restricted to the fields this program
reads.  A field the code accesses with `dict.get(key, default)` — so that the
code itself tolerates its absence — is an `Option`; fields the code indexes
directly (`d["key"]`) are plain. -/

/-- One entry of the `/fapi/v3/positionRisk` response (`symbol`,
`positionSide`, `positionAmt`); `positionAmt` is read with
`.get("positionAmt", 0)` in the filter but `["positionAmt"]` in
`hedge_positions`. -/
structure Position where
  symbol : String
  positionSide : String
  positionAmt : Option ℚ
deriving DecidableEq, Repr

/-- The `/fapi/v1/premiumIndex` response; the code reads only
`lastFundingRate`, via `.get("lastFundingRate", 0)`. -/
structure Funding where
  lastFundingRate : Option ℚ
deriving DecidableEq, Repr

/-- An order-placement response as `unwind_positions` consumes it: `symbol`
and `positionSide` indexed directly, `origQty` via `.get("origQty", 0)`. -/
structure OrderResp where
  symbol : String
  positionSide : String
  origQty : Option ℚ
deriving DecidableEq, Repr

/-- The params dict built for `POST /fapi/v1/order`, before the signature is
added: `{symbol, side, type, positionSide, quantity, timestamp}`. -/
structure OrderReq where
  symbol : String
  side : String
  type : String
  positionSide : String
  quantity : ℚ
  timestamp : Int
deriving DecidableEq, Repr

/-- A raised Python exception, by kind: `AttributeError` from `None.get(...)`,
`KeyError` from `d["missing"]`, `TypeError` from `None["key"]`. -/
inductive PyErr
  | attributeError
  | keyError
  | typeError
deriving DecidableEq, Repr

/-! ## Parameter lists and signing of each request -/

/-- The order params dict as an ordered key/value list, in the insertion order
of the dict literal in the source.  `floatStr` renders the float `quantity`
the way Python `str()` would. -/
def orderParamsList (floatStr : ℚ → String) (o : OrderReq) : List (String × String) :=
  [("symbol", o.symbol),
   ("side", o.side),
   ("type", o.type),
   ("positionSide", o.positionSide),
   ("quantity", floatStr o.quantity),
   ("timestamp", toString o.timestamp)]

/-- The order params after `params["signature"] = self._generate_signature(params)`:
the signature of the pre-existing pairs is appended as a new last key. -/
def signedOrderParams (floatStr : ℚ → String) (secret : String) (o : OrderReq) :
    List (String × String) :=
  orderParamsList floatStr o
    ++ [("signature", generate_signature secret (orderParamsList floatStr o))]

/-- `get_positions`'s params dict before signing: `{"timestamp": ts}`. -/
def getPositionsBaseParams (ts : Int) : List (String × String) :=
  [("timestamp", toString ts)]

/-- `get_positions`'s params after the signature is added. -/
def getPositionsParams (secret : String) (ts : Int) : List (String × String) :=
  getPositionsBaseParams ts
    ++ [("signature", generate_signature secret (getPositionsBaseParams ts))]

/-! ## Operations -/

/-- `get_positions`, given the raw `/fapi/v3/positionRisk` response (`none`
when `_make_request` failed): on a truthy (non-`None`, non-empty) response,
filter to positions with `float(position.get("positionAmt", 0)) != 0`;
otherwise return `None`. -/
def get_positions (resp : Option (List Position)) : Option (List Position) :=
  match resp with
  | none => none
  | some ps =>
      if ps = [] then none
      else some (ps.filter (fun p => decide (p.positionAmt.getD 0 ≠ 0)))

/-- The hedge order `hedge_positions` builds for one position: side `BUY` for
a `SHORT` position else `SELL`, positionSide flipped, quantity
`abs(float(position["positionAmt"]))`. -/
def hedgeOrder (p : Position) (amt : ℚ) (ts : Int) : OrderReq :=
  { symbol := p.symbol
    side := if p.positionSide = "SHORT" then "BUY" else "SELL"
    type := "MARKET"
    positionSide := if p.positionSide = "SHORT" then "LONG" else "SHORT"
    quantity := |amt|
    timestamp := ts }

/-- The closing order `unwind_positions` builds from one hedge-order response:
positionSide copied unchanged, side `BUY` iff that positionSide is `SHORT`,
quantity `abs(float(order.get("origQty", 0)))`. -/
def unwindOrder (o : OrderResp) (ts : Int) : OrderReq :=
  { symbol := o.symbol
    side := if o.positionSide = "SHORT" then "BUY" else "SELL"
    type := "MARKET"
    positionSide := o.positionSide
    quantity := |o.origQty.getD 0|
    timestamp := ts }

/-- Outcome of a hedge/unwind batch loop: the orders actually POSTed before
the loop finished or raised, and either the collected per-order responses
(`none` marking a failed submission) or the exception that escaped. -/
structure BatchOut (α : Type) where
  submitted : List OrderReq
  result : Except PyErr (List (Option α))
deriving Repr

/-- The loop of `hedge_positions`, from call index `i`: for each position read
`position["positionAmt"]` (KeyError when absent), build the hedge order with a
per-order timestamp `tsF i`, sign, POST it through the `submit` oracle, and
append the response whatever it was. -/
def hedgeGo (submit : Nat → List (String × String) → Option OrderResp)
    (tsF : Nat → Int) (floatStr : ℚ → String) (secret : String) :
    Nat → List Position → BatchOut OrderResp
  | _, [] => ⟨[], .ok []⟩
  | i, p :: rest =>
    match p.positionAmt with
    | none => ⟨[], .error .keyError⟩
    | some amt =>
      let req := hedgeOrder p amt (tsF i)
      let resp := submit i (signedOrderParams floatStr secret req)
      let out := hedgeGo submit tsF floatStr secret (i + 1) rest
      ⟨req :: out.submitted, out.result.map (fun l => resp :: l)⟩

/-- `hedge_positions`. -/
def hedge_positions (submit : Nat → List (String × String) → Option OrderResp)
    (tsF : Nat → Int) (floatStr : ℚ → String) (secret : String)
    (positions : List Position) : BatchOut OrderResp :=
  hedgeGo submit tsF floatStr secret 0 positions

/-- The loop of `unwind_positions`, from call index `i`: a `None` entry left
by a failed hedge submission raises TypeError at `order["symbol"]`; otherwise
build the closing order, sign, POST, append the response. -/
def unwindGo (submit : Nat → List (String × String) → Option OrderResp)
    (tsF : Nat → Int) (floatStr : ℚ → String) (secret : String) :
    Nat → List (Option OrderResp) → BatchOut OrderResp
  | _, [] => ⟨[], .ok []⟩
  | _, none :: _ => ⟨[], .error .typeError⟩
  | i, some o :: rest =>
    let req := unwindOrder o (tsF i)
    let resp := submit i (signedOrderParams floatStr secret req)
    let out := unwindGo submit tsF floatStr secret (i + 1) rest
    ⟨req :: out.submitted, out.result.map (fun l => resp :: l)⟩

/-- `unwind_positions`. -/
def unwind_positions (submit : Nat → List (String × String) → Option OrderResp)
    (tsF : Nat → Int) (floatStr : ℚ → String) (secret : String)
    (orders : List (Option OrderResp)) : BatchOut OrderResp :=
  unwindGo submit tsF floatStr secret 0 orders

/-! ## The decision workflow (`main`) -/

/-- `funding.get("lastFundingRate", 0)` — raises AttributeError when the
funding fetch failed and `funding` is `None`. -/
def rateOf (f : Option Funding) : Except PyErr ℚ :=
  match f with
  | none => .error .attributeError
  | some fd => .ok (fd.lastFundingRate.getD 0)

/-- The source's funding-rate threshold literal `0.0005`, as the exact
rational 5/10000 (see `fundingThreshold_eq_half_permille`). -/
def fundingThreshold : ℚ := mkRat 5 10000

/-- The selection condition of `main`'s loop body, with Python's
short-circuit: the funding object is only dereferenced when the side equals
`"LONG"` (first branch) or `"SHORT"` (elif). -/
def decideSelect (f : Option Funding) (side : String) : Except PyErr Bool :=
  match (if side = "LONG" then (rateOf f).map (fun r => decide (fundingThreshold < r))
         else .ok false : Except PyErr Bool) with
  | .error e => .error e
  | .ok true => .ok true
  | .ok false =>
    match (if side = "SHORT" then (rateOf f).map (fun r => decide (r < -fundingThreshold))
           else .ok false : Except PyErr Bool) with
    | .error e => .error e
    | .ok b => .ok b

/-- `main`'s funding loop: fetch the funding rate per position through the
`fundResp` oracle and collect the positions selected for hedging, propagating
any exception raised mid-loop. -/
def computeAdjust (fundResp : String → Option Funding) :
    List Position → Except PyErr (List Position)
  | [] => .ok []
  | p :: rest =>
    match decideSelect (fundResp p.symbol) p.positionSide with
    | .error e => .error e
    | .ok sel =>
      match computeAdjust fundResp rest with
      | .error e => .error e
      | .ok t => .ok (if sel then p :: t else t)

/-- Observable outcome of one run of `main` (after configuration succeeded):
the hedge and unwind orders POSTed, and the process exit code — 0 for a normal
return, 1 when the catch-all `except` logged an exception and called
`sys.exit(1)`. -/
structure MainOut where
  hedgeSubmitted : List OrderReq
  unwindSubmitted : List OrderReq
  exitCode : Nat
deriving DecidableEq, Repr

/-- `main`'s workflow, over the response oracles: `posResp` is the raw
positionRisk response, `fundResp` the premiumIndex response per symbol,
`hSubmit`/`uSubmit` the order-endpoint responses per call index, and
`hTs`/`uTs` the per-order timestamps. -/
def mainRun (posResp : Option (List Position)) (fundResp : String → Option Funding)
    (hSubmit uSubmit : Nat → List (String × String) → Option OrderResp)
    (hTs uTs : Nat → Int) (floatStr : ℚ → String) (secret : String) : MainOut :=
  match get_positions posResp with
  | none => ⟨[], [], 0⟩
  | some ps =>
    if ps = [] then ⟨[], [], 0⟩
    else
      match computeAdjust fundResp ps with
      | .error _ => ⟨[], [], 1⟩
      | .ok adjust =>
        if adjust = [] then ⟨[], [], 0⟩
        else
          let hOut := hedge_positions hSubmit hTs floatStr secret adjust
          match hOut.result with
          | .error _ => ⟨hOut.submitted, [], 1⟩
          | .ok hedged =>
            let uOut := unwind_positions uSubmit uTs floatStr secret hedged
            match uOut.result with
            | .error _ => ⟨hOut.submitted, uOut.submitted, 1⟩
            | .ok _ => ⟨hOut.submitted, uOut.submitted, 0⟩

/-- The params list ends with a `signature` key computed over exactly the
pairs before it, and no earlier pair uses the `signature` key — so the signed
string never covers the signature itself. -/
def signedLast (secret : String) (ps : List (String × String)) : Prop :=
  ∃ base, ps = base ++ [("signature", generate_signature secret base)] ∧
    "signature" ∉ base.map Prod.fst

/-! ## Theorems -/

/-- The spec's phrasing of the query string: the `key=value` pairs joined with
`"&"`, as a bare recursion independent of `String.intercalate`. -/
def specJoin : List String → String
  | [] => ""
  | [x] => x
  | x :: y :: rest => x ++ "&" ++ specJoin (y :: rest)

/-- Tail of a separated join: each further element is preceded by the
separator. -/
def joinTail (s : String) : List String → String
  | [] => ""
  | a :: as => s ++ a ++ joinTail s as

theorem intercalate_go_eq (s : String) (l : List String) (acc : String) :
    String.intercalate.go acc s l = acc ++ joinTail s l := by
  induction l generalizing acc with
  | nil => simp [String.intercalate.go, joinTail]
  | cons a as ih => simp [String.intercalate.go, joinTail, ih, String.append_assoc]

theorem specJoin_cons (a : String) (as : List String) :
    specJoin (a :: as) = a ++ joinTail "&" as := by
  induction as generalizing a with
  | nil => simp [specJoin, joinTail]
  | cons b bs ih => simp [specJoin, joinTail, ih, String.append_assoc]

theorem intercalate_amp_eq_specJoin (l : List String) :
    String.intercalate "&" l = specJoin l := by
  cases l with
  | nil => rfl
  | cons a as =>
    show String.intercalate.go a "&" as = _
    rw [intercalate_go_eq, specJoin_cons]

/-- C2: the signature `_generate_signature` computes is the hex-encoded
HMAC-SHA256 digest, keyed by the API secret's UTF-8 bytes, of the string built
by joining `key=value` pairs with `&` in the mapping's iteration order. -/
theorem signature_is_hmac_of_joined_query (params : List (String × String)) (secret : String) :
    generate_signature secret params =
      hexDigest (hmacSha256 (strBytes secret)
        (strBytes (specJoin (params.map (fun kv => kv.1 ++ "=" ++ kv.2))))) := by
  unfold generate_signature queryString
  rw [intercalate_amp_eq_specJoin]

/-- C3: in the requests built by `get_positions` and by the order loops of
`hedge_positions` (orders shaped by `hedgeOrder`) and `unwind_positions`
(orders shaped by `unwindOrder`), the signature is appended as the final
parameter, computed over exactly the preceding parameters, which never include
a `signature` key. -/
theorem signature_appended_last_and_excluded (floatStr : ℚ → String) (secret : String)
    (ts ts₁ ts₂ : Int) (p : Position) (amt : ℚ) (o : OrderResp) :
    signedLast secret (getPositionsParams secret ts) ∧
    signedLast secret (signedOrderParams floatStr secret (hedgeOrder p amt ts₁)) ∧
    signedLast secret (signedOrderParams floatStr secret (unwindOrder o ts₂)) := by
  refine ⟨⟨getPositionsBaseParams ts, rfl, ?_⟩,
          ⟨orderParamsList floatStr (hedgeOrder p amt ts₁), rfl, ?_⟩,
          ⟨orderParamsList floatStr (unwindOrder o ts₂), rfl, ?_⟩⟩ <;>
    simp [getPositionsBaseParams, orderParamsList]

theorem decideSelect_some_long (fd : Funding) :
    decideSelect (some fd) "LONG"
      = .ok (decide (fundingThreshold < fd.lastFundingRate.getD 0)) := by
  cases hc : decide (fundingThreshold < fd.lastFundingRate.getD 0) <;>
    simp [decideSelect, rateOf, Except.map, hc]

theorem decideSelect_some_short (fd : Funding) :
    decideSelect (some fd) "SHORT"
      = .ok (decide (fd.lastFundingRate.getD 0 < -fundingThreshold)) := by
  cases hc : decide (fd.lastFundingRate.getD 0 < -fundingThreshold) <;>
    simp [decideSelect, rateOf, Except.map, hc]

theorem fundingThreshold_eq_half_permille : fundingThreshold = (0.0005 : ℚ) := by
  norm_num [fundingThreshold, mkRat, Rat.normalize]

theorem decideSelect_none_of_side (side : String)
    (h : side = "LONG" ∨ side = "SHORT") :
    decideSelect none side = .error .attributeError := by
  rcases h with h | h <;> subst h <;> rfl

/-- When the funding loop completed without raising, each traversed position
got a definite selection verdict. -/
theorem computeAdjust_ok_verdict (fundResp : String → Option Funding)
    (ps adjust : List Position) (h : computeAdjust fundResp ps = .ok adjust)
    (p : Position) (hp : p ∈ ps) :
    ∃ b, decideSelect (fundResp p.symbol) p.positionSide = .ok b := by
  induction ps generalizing adjust with
  | nil => cases hp
  | cons q rest ih =>
    rw [computeAdjust] at h
    rcases hd : decideSelect (fundResp q.symbol) q.positionSide with e | sel <;> rw [hd] at h
    · cases h
    · rcases ht : computeAdjust fundResp rest with e | t <;> rw [ht] at h
      · cases h
      · rcases List.mem_cons.mp hp with rfl | hp'
        · exact ⟨sel, hd⟩
        · exact ih t ht hp'

/-- Membership in the selected list: a position from the input is kept exactly
when its selection verdict was `true`. -/
theorem mem_computeAdjust (fundResp : String → Option Funding)
    (ps adjust : List Position) (h : computeAdjust fundResp ps = .ok adjust)
    (p : Position) :
    p ∈ adjust ↔ p ∈ ps ∧ decideSelect (fundResp p.symbol) p.positionSide = .ok true := by
  induction ps generalizing adjust with
  | nil =>
    cases h
    simp
  | cons q rest ih =>
    rw [computeAdjust] at h
    rcases hd : decideSelect (fundResp q.symbol) q.positionSide with e | sel <;> rw [hd] at h
    · cases h
    · rcases ht : computeAdjust fundResp rest with e | t <;> rw [ht] at h
      · cases h
      · cases h
        cases sel <;> by_cases hpq : p = q
        · subst hpq
          simp [List.mem_cons, ih t ht, hd]
        · simp [List.mem_cons, ih t ht, hpq]
        · subst hpq
          simp [List.mem_cons, ih t ht, hd]
        · simp [List.mem_cons, ih t ht, hpq]

/-- C4: a LONG position is selected for hedging iff its funding rate strictly
exceeds 0.0005 (so exactly 0.0005 is not selected), and a SHORT position iff
its rate is strictly below -0.0005; in either case the funding fetch for its
symbol must have returned an object. -/
theorem funding_threshold_selection (fundResp : String → Option Funding)
    (ps adjust : List Position) (h : computeAdjust fundResp ps = .ok adjust)
    (p : Position) (hp : p ∈ ps) :
    (p.positionSide = "LONG" →
      ∃ fd, fundResp p.symbol = some fd ∧
        (p ∈ adjust ↔ (0.0005 : ℚ) < fd.lastFundingRate.getD 0)) ∧
    (p.positionSide = "SHORT" →
      ∃ fd, fundResp p.symbol = some fd ∧
        (p ∈ adjust ↔ fd.lastFundingRate.getD 0 < -(0.0005 : ℚ))) := by
  obtain ⟨b, hb⟩ := computeAdjust_ok_verdict fundResp ps adjust h p hp
  have hmem := mem_computeAdjust fundResp ps adjust h p
  constructor
  · intro hside
    rcases hf : fundResp p.symbol with _ | fd
    · rw [hside, hf, decideSelect_none_of_side _ (Or.inl rfl)] at hb
      cases hb
    · refine ⟨fd, rfl, ?_⟩
      rw [hmem, hside, hf, decideSelect_some_long, fundingThreshold_eq_half_permille]
      simp [hp]
  · intro hside
    rcases hf : fundResp p.symbol with _ | fd
    · rw [hside, hf, decideSelect_none_of_side _ (Or.inr rfl)] at hb
      cases hb
    · refine ⟨fd, rfl, ?_⟩
      rw [hmem, hside, hf, decideSelect_some_short, fundingThreshold_eq_half_permille]
      simp [hp]

/-- Witness for C4 at a concrete input: one LONG position with funding rate
0.001 — above the threshold, hence selected. -/
theorem funding_threshold_selection_witness :
    computeAdjust (fun _ => some ⟨some (mkRat 1 1000)⟩)
        [⟨"BTCUSDT", "LONG", some 1⟩] = .ok [⟨"BTCUSDT", "LONG", some 1⟩] ∧
    (⟨"BTCUSDT", "LONG", some 1⟩ : Position)
        ∈ [(⟨"BTCUSDT", "LONG", some 1⟩ : Position)] ∧
    ∃ fd, (fun _ => some (⟨some (mkRat 1 1000)⟩ : Funding)) "BTCUSDT" = some fd ∧
      ((⟨"BTCUSDT", "LONG", some 1⟩ : Position) ∈ [(⟨"BTCUSDT", "LONG", some 1⟩ : Position)]
        ↔ (0.0005 : ℚ) < fd.lastFundingRate.getD 0) := by
  refine ⟨rfl, List.mem_singleton.mpr rfl, ?_⟩
  exact (funding_threshold_selection (fun _ => some ⟨some (mkRat 1 1000)⟩)
    [⟨"BTCUSDT", "LONG", some 1⟩] [⟨"BTCUSDT", "LONG", some 1⟩] rfl
    ⟨"BTCUSDT", "LONG", some 1⟩ (List.mem_singleton.mpr rfl)).1 rfl

/-- C7: on a truthy (non-empty) positionRisk response, `get_positions` keeps
exactly the positions with nonzero amount — zero-amount positions are dropped,
nonzero ones of either sign are kept. -/
theorem positions_filtered_nonzero (resp : List Position) (hne : resp ≠ []) :
    ∃ res, get_positions (some resp) = some res ∧
      ∀ p, p ∈ res ↔ p ∈ resp ∧ p.positionAmt.getD 0 ≠ 0 := by
  refine ⟨resp.filter (fun p => decide (p.positionAmt.getD 0 ≠ 0)), ?_, ?_⟩
  · simp [get_positions, hne]
  · intro p
    simp [List.mem_filter]

/-- Witness for C7: a response holding one zero and two nonzero positions of
opposite signs. -/
theorem positions_filtered_nonzero_witness :
    ([⟨"A", "LONG", some 1⟩, ⟨"B", "SHORT", some (-2)⟩, ⟨"C", "BOTH", some 0⟩]
        : List Position) ≠ [] ∧
    ∃ res, get_positions (some [⟨"A", "LONG", some 1⟩, ⟨"B", "SHORT", some (-2)⟩,
        ⟨"C", "BOTH", some 0⟩]) = some res ∧
      ∀ p, p ∈ res ↔
        p ∈ ([⟨"A", "LONG", some 1⟩, ⟨"B", "SHORT", some (-2)⟩, ⟨"C", "BOTH", some 0⟩]
          : List Position) ∧ p.positionAmt.getD 0 ≠ 0 := by
  exact ⟨by decide, positions_filtered_nonzero _ (by decide)⟩

/-- Each submitted hedge order, by input index: the flipped order for the
position at that index, with that call's timestamp. -/
theorem hedgeGo_submitted_getElem (submit : Nat → List (String × String) → Option OrderResp)
    (tsF : Nat → Int) (floatStr : ℚ → String) (secret : String) (ps : List Position) :
    ∀ (i j : Nat) (p : Position), (∀ q ∈ ps, q.positionAmt ≠ none) → ps[j]? = some p →
      ∃ amt, p.positionAmt = some amt ∧
        (hedgeGo submit tsF floatStr secret i ps).submitted[j]?
          = some (hedgeOrder p amt (tsF (i + j))) := by
  induction ps with
  | nil =>
    intro i j p _ hj
    simp at hj
  | cons q rest ih =>
    intro i j p hall hj
    obtain ⟨amtq, hamtq⟩ : ∃ a, q.positionAmt = some a := by
      cases hq : q.positionAmt
      · exact absurd hq (hall q (List.mem_cons_self q rest))
      · exact ⟨_, rfl⟩
    cases j with
    | zero =>
      rw [List.getElem?_cons_zero] at hj
      cases hj
      exact ⟨amtq, hamtq, by simp [hedgeGo, hamtq]⟩
    | succ j' =>
      rw [List.getElem?_cons_succ] at hj
      obtain ⟨amt, h1, h2⟩ :=
        ih (i + 1) j' p (fun q' hq' => hall q' (List.mem_cons_of_mem _ hq')) hj
      have harith : i + 1 + j' = i + (j' + 1) := by omega
      rw [harith] at h2
      exact ⟨amt, h1, by simp [hedgeGo, hamtq, h2]⟩

/-- When every position carries its amount, the hedge loop completes, returns
one entry per position, and entry `j` is exactly the order-endpoint response
for position `j`'s signed order — independent of every other entry. -/
theorem hedgeGo_result_ok (submit : Nat → List (String × String) → Option OrderResp)
    (tsF : Nat → Int) (floatStr : ℚ → String) (secret : String) (ps : List Position) :
    ∀ (i : Nat), (∀ q ∈ ps, q.positionAmt ≠ none) →
      ∃ res, (hedgeGo submit tsF floatStr secret i ps).result = .ok res ∧
        res.length = ps.length ∧
        ∀ j p, ps[j]? = some p → ∃ amt, p.positionAmt = some amt ∧
          res[j]? = some (submit (i + j)
            (signedOrderParams floatStr secret (hedgeOrder p amt (tsF (i + j))))) := by
  induction ps with
  | nil =>
    intro i _
    exact ⟨[], rfl, rfl, by intro j p hj; simp at hj⟩
  | cons q rest ih =>
    intro i hall
    obtain ⟨amtq, hamtq⟩ : ∃ a, q.positionAmt = some a := by
      cases hq : q.positionAmt
      · exact absurd hq (hall q (List.mem_cons_self q rest))
      · exact ⟨_, rfl⟩
    obtain ⟨res, hres, hlen, hidx⟩ :=
      ih (i + 1) (fun q' hq' => hall q' (List.mem_cons_of_mem _ hq'))
    refine ⟨submit i (signedOrderParams floatStr secret (hedgeOrder q amtq (tsF i))) :: res,
      ?_, by simp [hlen], ?_⟩
    · simp [hedgeGo, hamtq, hres, Except.map]
    · intro j p hj
      cases j with
      | zero =>
        rw [List.getElem?_cons_zero] at hj
        cases hj
        exact ⟨amtq, hamtq, by simp⟩
      | succ j' =>
        rw [List.getElem?_cons_succ] at hj
        obtain ⟨amt, h1, h2⟩ := hidx j' p hj
        have harith : i + 1 + j' = i + (j' + 1) := by omega
        rw [harith] at h2
        exact ⟨amt, h1, by simp [h2]⟩

/-- Each submitted unwind order, by input index, while no entry before is
absent: the closing order for the response at that index. -/
theorem unwindGo_submitted_getElem (submit : Nat → List (String × String) → Option OrderResp)
    (tsF : Nat → Int) (floatStr : ℚ → String) (secret : String)
    (os : List (Option OrderResp)) :
    ∀ (i j : Nat) (o : OrderResp), (∀ x ∈ os, x ≠ none) → os[j]? = some (some o) →
      (unwindGo submit tsF floatStr secret i os).submitted[j]?
        = some (unwindOrder o (tsF (i + j))) := by
  induction os with
  | nil =>
    intro i j o _ hj
    simp at hj
  | cons x rest ih =>
    intro i j o hall hj
    obtain ⟨ox, hx⟩ : ∃ a, x = some a := by
      cases hxx : x
      · exact absurd hxx (hall x (List.mem_cons_self x rest))
      · exact ⟨_, rfl⟩
    subst hx
    cases j with
    | zero =>
      rw [List.getElem?_cons_zero] at hj
      cases hj
      simp [unwindGo]
    | succ j' =>
      rw [List.getElem?_cons_succ] at hj
      have h2 := ih (i + 1) j' o (fun x' hx' => hall x' (List.mem_cons_of_mem _ hx')) hj
      have harith : i + 1 + j' = i + (j' + 1) := by omega
      rw [harith] at h2
      simp [unwindGo, h2]

/-- When no entry is absent, the unwind loop completes with one response per
input order, entry `j` depending only on input `j`. -/
theorem unwindGo_result_ok (submit : Nat → List (String × String) → Option OrderResp)
    (tsF : Nat → Int) (floatStr : ℚ → String) (secret : String)
    (os : List (Option OrderResp)) :
    ∀ (i : Nat), (∀ x ∈ os, x ≠ none) →
      ∃ res, (unwindGo submit tsF floatStr secret i os).result = .ok res ∧
        res.length = os.length ∧
        ∀ j o, os[j]? = some (some o) →
          res[j]? = some (submit (i + j)
            (signedOrderParams floatStr secret (unwindOrder o (tsF (i + j))))) := by
  induction os with
  | nil =>
    intro i _
    exact ⟨[], rfl, rfl, by intro j o hj; simp at hj⟩
  | cons x rest ih =>
    intro i hall
    obtain ⟨ox, hx⟩ : ∃ a, x = some a := by
      cases hxx : x
      · exact absurd hxx (hall x (List.mem_cons_self x rest))
      · exact ⟨_, rfl⟩
    subst hx
    obtain ⟨res, hres, hlen, hidx⟩ :=
      ih (i + 1) (fun x' hx' => hall x' (List.mem_cons_of_mem _ hx'))
    refine ⟨submit i (signedOrderParams floatStr secret (unwindOrder ox (tsF i))) :: res,
      ?_, by simp [hlen], ?_⟩
    · simp [unwindGo, hres, Except.map]
    · intro j o hj
      cases j with
      | zero =>
        rw [List.getElem?_cons_zero] at hj
        cases hj
        simp
      | succ j' =>
        rw [List.getElem?_cons_succ] at hj
        have h2 := hidx j' o hj
        have harith : i + 1 + j' = i + (j' + 1) := by omega
        rw [harith] at h2
        simp [h2]

/-- C5: for the position at each index of its input, `hedge_positions` builds
a MARKET order with `side=BUY, positionSide=LONG` when the position is SHORT,
`side=SELL, positionSide=SHORT` when it is LONG, and quantity the absolute
value of the position's amount, hence non-negative. -/
theorem hedge_builds_flipped_market_orders
    (submit : Nat → List (String × String) → Option OrderResp)
    (tsF : Nat → Int) (floatStr : ℚ → String) (secret : String)
    (positions : List Position) (hall : ∀ q ∈ positions, q.positionAmt ≠ none)
    (j : Nat) (p : Position) (hj : positions[j]? = some p) :
    ∃ amt req, p.positionAmt = some amt ∧
      (hedge_positions submit tsF floatStr secret positions).submitted[j]? = some req ∧
      req = hedgeOrder p amt (tsF j) ∧
      req.type = "MARKET" ∧
      (p.positionSide = "SHORT" → req.side = "BUY" ∧ req.positionSide = "LONG") ∧
      (p.positionSide = "LONG" → req.side = "SELL" ∧ req.positionSide = "SHORT") ∧
      req.quantity = |amt| ∧ 0 ≤ req.quantity := by
  obtain ⟨amt, h1, h2⟩ :=
    hedgeGo_submitted_getElem submit tsF floatStr secret positions 0 j p hall hj
  rw [Nat.zero_add] at h2
  refine ⟨amt, hedgeOrder p amt (tsF j), h1, h2, rfl, rfl, ?_, ?_, rfl, abs_nonneg amt⟩
  · intro hs
    simp [hedgeOrder, hs]
  · intro hs
    simp [hedgeOrder, hs]

/-- Witness for C5: one SHORT position with negative amount -2 — the hedge
order is BUY/LONG with quantity 2. -/
theorem hedge_builds_flipped_market_orders_witness :
    (∀ q ∈ ([⟨"ETHUSDT", "SHORT", some (-2)⟩] : List Position), q.positionAmt ≠ none) ∧
    ([⟨"ETHUSDT", "SHORT", some (-2)⟩] : List Position)[0]?
      = some ⟨"ETHUSDT", "SHORT", some (-2)⟩ ∧
    ∃ amt req, (⟨"ETHUSDT", "SHORT", some (-2)⟩ : Position).positionAmt = some amt ∧
      (hedge_positions (fun _ _ => none) (fun _ => 0) (fun _ => "") "k"
        [⟨"ETHUSDT", "SHORT", some (-2)⟩]).submitted[0]? = some req ∧
      req = hedgeOrder ⟨"ETHUSDT", "SHORT", some (-2)⟩ amt 0 ∧
      req.type = "MARKET" ∧
      ((⟨"ETHUSDT", "SHORT", some (-2)⟩ : Position).positionSide = "SHORT" →
        req.side = "BUY" ∧ req.positionSide = "LONG") ∧
      ((⟨"ETHUSDT", "SHORT", some (-2)⟩ : Position).positionSide = "LONG" →
        req.side = "SELL" ∧ req.positionSide = "SHORT") ∧
      req.quantity = |amt| ∧ 0 ≤ req.quantity := by
  refine ⟨?_, rfl, ?_⟩
  · intro q hq
    simp at hq
    simp [hq]
  · exact hedge_builds_flipped_market_orders (fun _ _ => none) (fun _ => 0) (fun _ => "") "k"
      [⟨"ETHUSDT", "SHORT", some (-2)⟩]
      (by intro q hq; simp at hq; simp [hq]) 0 ⟨"ETHUSDT", "SHORT", some (-2)⟩ rfl

/-- C6: for the hedge-order response at each index of its input,
`unwind_positions` builds a closing MARKET order with the response's
positionSide unchanged, side BUY iff that positionSide is SHORT, and quantity
the absolute value of the response's `origQty`, zero when `origQty` is
absent. -/
theorem unwind_builds_closing_orders
    (submit : Nat → List (String × String) → Option OrderResp)
    (tsF : Nat → Int) (floatStr : ℚ → String) (secret : String)
    (orders : List (Option OrderResp)) (hall : ∀ x ∈ orders, x ≠ none)
    (j : Nat) (o : OrderResp) (hj : orders[j]? = some (some o)) :
    ∃ req, (unwind_positions submit tsF floatStr secret orders).submitted[j]? = some req ∧
      req = unwindOrder o (tsF j) ∧
      req.type = "MARKET" ∧
      req.positionSide = o.positionSide ∧
      req.side = (if o.positionSide = "SHORT" then "BUY" else "SELL") ∧
      req.quantity = |o.origQty.getD 0| ∧
      (o.origQty = none → req.quantity = 0) := by
  have h2 := unwindGo_submitted_getElem submit tsF floatStr secret orders 0 j o hall hj
  rw [Nat.zero_add] at h2
  refine ⟨unwindOrder o (tsF j), h2, rfl, rfl, rfl, rfl, rfl, ?_⟩
  intro hq
  simp [unwindOrder, hq]

/-- Witness for C6: one SHORT hedge response lacking `origQty` — closing
order is BUY/SHORT with quantity 0. -/
theorem unwind_builds_closing_orders_witness :
    (∀ x ∈ ([some ⟨"ETHUSDT", "SHORT", none⟩] : List (Option OrderResp)), x ≠ none) ∧
    ([some ⟨"ETHUSDT", "SHORT", none⟩] : List (Option OrderResp))[0]?
      = some (some ⟨"ETHUSDT", "SHORT", none⟩) ∧
    ∃ req, (unwind_positions (fun _ _ => none) (fun _ => 0) (fun _ => "") "k"
        [some ⟨"ETHUSDT", "SHORT", none⟩]).submitted[0]? = some req ∧
      req = unwindOrder ⟨"ETHUSDT", "SHORT", none⟩ 0 ∧
      req.type = "MARKET" ∧
      req.positionSide = (⟨"ETHUSDT", "SHORT", none⟩ : OrderResp).positionSide ∧
      req.side = (if (⟨"ETHUSDT", "SHORT", none⟩ : OrderResp).positionSide = "SHORT"
        then "BUY" else "SELL") ∧
      req.quantity = |(⟨"ETHUSDT", "SHORT", none⟩ : OrderResp).origQty.getD 0| ∧
      ((⟨"ETHUSDT", "SHORT", none⟩ : OrderResp).origQty = none → req.quantity = 0) := by
  refine ⟨?_, rfl, ?_⟩
  · intro x hx
    simp at hx
    simp [hx]
  · exact unwind_builds_closing_orders (fun _ _ => none) (fun _ => 0) (fun _ => "") "k"
      [some ⟨"ETHUSDT", "SHORT", none⟩]
      (by intro x hx; simp at hx; simp [hx]) 0 ⟨"ETHUSDT", "SHORT", none⟩ rfl

/-- C8: both batch loops submit sequentially and independently — when inputs
are well-formed, each returns an `ok` list matching the input in length, whose
entry `j` is exactly the order endpoint's response for input `j` (absent when
that single submission failed), regardless of any other entry's outcome. -/
theorem batch_submission_independent
    (hSubmit uSubmit : Nat → List (String × String) → Option OrderResp)
    (hTs uTs : Nat → Int) (floatStr : ℚ → String) (secret : String)
    (positions : List Position) (orders : List (Option OrderResp))
    (h1 : ∀ q ∈ positions, q.positionAmt ≠ none) (h2 : ∀ x ∈ orders, x ≠ none) :
    (∃ res, (hedge_positions hSubmit hTs floatStr secret positions).result = .ok res ∧
      res.length = positions.length ∧
      ∀ j p, positions[j]? = some p → ∃ amt, p.positionAmt = some amt ∧
        res[j]? = some (hSubmit j
          (signedOrderParams floatStr secret (hedgeOrder p amt (hTs j))))) ∧
    (∃ res, (unwind_positions uSubmit uTs floatStr secret orders).result = .ok res ∧
      res.length = orders.length ∧
      ∀ j o, orders[j]? = some (some o) →
        res[j]? = some (uSubmit j
          (signedOrderParams floatStr secret (unwindOrder o (uTs j))))) := by
  constructor
  · obtain ⟨res, hres, hlen, hidx⟩ :=
      hedgeGo_result_ok hSubmit hTs floatStr secret positions 0 h1
    refine ⟨res, hres, hlen, ?_⟩
    intro j p hj
    obtain ⟨amt, ha, hb⟩ := hidx j p hj
    rw [Nat.zero_add] at hb
    exact ⟨amt, ha, hb⟩
  · obtain ⟨res, hres, hlen, hidx⟩ :=
      unwindGo_result_ok uSubmit uTs floatStr secret orders 0 h2
    refine ⟨res, hres, hlen, ?_⟩
    intro j o hj
    have hb := hidx j o hj
    rw [Nat.zero_add] at hb
    exact hb

/-- Witness for C8: a two-position batch whose first submission fails and
second succeeds — both entries present, in order. -/
theorem batch_submission_independent_witness :
    (∀ q ∈ ([⟨"A", "LONG", some 1⟩, ⟨"B", "SHORT", some (-2)⟩] : List Position),
      q.positionAmt ≠ none) ∧
    (∀ x ∈ ([some ⟨"A", "SHORT", some 1⟩] : List (Option OrderResp)), x ≠ none) ∧
    (∃ res, (hedge_positions
        (fun i _ => if i = 0 then none else some ⟨"B", "LONG", some 2⟩)
        (fun _ => 0) (fun _ => "") "k"
        [⟨"A", "LONG", some 1⟩, ⟨"B", "SHORT", some (-2)⟩]).result = .ok res ∧
      res.length = ([⟨"A", "LONG", some 1⟩, ⟨"B", "SHORT", some (-2)⟩] : List Position).length ∧
      ∀ j p, ([⟨"A", "LONG", some 1⟩, ⟨"B", "SHORT", some (-2)⟩] : List Position)[j]? = some p →
        ∃ amt, p.positionAmt = some amt ∧
          res[j]? = some ((fun i _ => if i = 0 then none else some (⟨"B", "LONG", some 2⟩ : OrderResp)) j
            (signedOrderParams (fun _ => "") "k" (hedgeOrder p amt 0)))) := by
  refine ⟨?_, ?_, ?_⟩
  · intro q hq
    rcases List.mem_cons.mp hq with h | h
    · simp [h]
    · simp at h
      simp [h]
  · intro x hx
    simp at hx
    simp [hx]
  · exact (batch_submission_independent
      (fun i _ => if i = 0 then none else some ⟨"B", "LONG", some 2⟩)
      (fun _ _ => none) (fun _ => 0) (fun _ => 0) (fun _ => "") "k"
      [⟨"A", "LONG", some 1⟩, ⟨"B", "SHORT", some (-2)⟩] [some ⟨"A", "SHORT", some 1⟩]
      (by intro q hq
          rcases List.mem_cons.mp hq with h | h
          · simp [h]
          · simp at h
            simp [h])
      (by intro x hx
          simp at hx
          simp [hx])).1

/-- C9: when `get_positions` yields no open positions (request failed, empty
response, or all amounts zero) or when no fetched position satisfies the
selection condition, `main` submits no hedge or unwind order and exits with
code 0. -/
theorem no_selection_no_orders_exit_zero (posResp : Option (List Position))
    (fundResp : String → Option Funding)
    (hSubmit uSubmit : Nat → List (String × String) → Option OrderResp)
    (hTs uTs : Nat → Int) (floatStr : ℚ → String) (secret : String)
    (h : get_positions posResp = none ∨
      ∃ ps, get_positions posResp = some ps ∧ computeAdjust fundResp ps = .ok []) :
    mainRun posResp fundResp hSubmit uSubmit hTs uTs floatStr secret = ⟨[], [], 0⟩ := by
  unfold mainRun
  rcases h with h | ⟨ps, hps, hadj⟩
  · rw [h]
  · rw [hps]
    by_cases hps0 : ps = []
    · simp [hps0]
    · simp [hps0, hadj]

/-- Witness for C9: one open LONG position whose funding rate 0.0001 is inside
the ±0.0005 band — nothing selected, no orders, exit 0. -/
theorem no_selection_no_orders_exit_zero_witness :
    (get_positions (some [⟨"BTCUSDT", "LONG", some 1⟩])
        = none ∨
      ∃ ps, get_positions (some [⟨"BTCUSDT", "LONG", some 1⟩]) = some ps ∧
        computeAdjust (fun _ => some ⟨some (mkRat 1 10000)⟩) ps = .ok []) ∧
    mainRun (some [⟨"BTCUSDT", "LONG", some 1⟩]) (fun _ => some ⟨some (mkRat 1 10000)⟩)
      (fun _ _ => none) (fun _ _ => none) (fun _ => 0) (fun _ => 0)
      (fun _ => "") "k" = ⟨[], [], 0⟩ := by
  refine ⟨Or.inr ⟨[⟨"BTCUSDT", "LONG", some 1⟩], rfl, rfl⟩, ?_⟩
  exact no_selection_no_orders_exit_zero (some [⟨"BTCUSDT", "LONG", some 1⟩])
    (fun _ => some ⟨some (mkRat 1 10000)⟩) (fun _ _ => none) (fun _ _ => none)
    (fun _ => 0) (fun _ => 0) (fun _ => "") "k"
    (Or.inr ⟨[⟨"BTCUSDT", "LONG", some 1⟩], rfl, rfl⟩)

/-- The unwind loop stops with a TypeError exactly at the first absent entry:
the entries before it were submitted, nothing at or after it is. -/
theorem unwindGo_error_at_none (submit : Nat → List (String × String) → Option OrderResp)
    (tsF : Nat → Int) (floatStr : ℚ → String) (secret : String)
    (post : List (Option OrderResp)) :
    ∀ (pre : List (Option OrderResp)) (i : Nat), (∀ x ∈ pre, x ≠ none) →
      (unwindGo submit tsF floatStr secret i (pre ++ none :: post)).result
          = .error .typeError ∧
      (unwindGo submit tsF floatStr secret i (pre ++ none :: post)).submitted.length
          = pre.length := by
  intro pre
  induction pre with
  | nil =>
    intro i _
    exact ⟨rfl, rfl⟩
  | cons x rest ih =>
    intro i hall
    obtain ⟨ox, hx⟩ : ∃ a, x = some a := by
      cases hxx : x
      · exact absurd hxx (hall x (List.mem_cons_self x rest))
      · exact ⟨_, rfl⟩
    subst hx
    obtain ⟨hr, hl⟩ := ih (i + 1) (fun x' hx' => hall x' (List.mem_cons_of_mem _ hx'))
    constructor
    · simp [unwindGo, hr, Except.map]
    · simp [unwindGo, hl]

/-- C10: a `None` entry in `unwind_positions`' input — exactly what
`hedge_positions` records for a failed hedge submission — raises TypeError
when the loop reaches it instead of skipping it: only the orders before it are
submitted, and a `main` run whose hedge batch produced such a list takes the
unhandled-exception path, exiting with code 1 with no later hedge unwound. -/
theorem unwind_raises_on_absent_entry
    (uSubmit : Nat → List (String × String) → Option OrderResp)
    (uTs : Nat → Int) (floatStr : ℚ → String) (secret : String)
    (pre post : List (Option OrderResp)) (hpre : ∀ x ∈ pre, x ≠ none) :
    (unwind_positions uSubmit uTs floatStr secret (pre ++ none :: post)).result
        = .error .typeError ∧
    (unwind_positions uSubmit uTs floatStr secret (pre ++ none :: post)).submitted.length
        = pre.length ∧
    (∀ (posResp : Option (List Position)) (fundResp : String → Option Funding)
      (hSubmit : Nat → List (String × String) → Option OrderResp) (hTs : Nat → Int)
      (ps adjust : List Position),
      get_positions posResp = some ps → ps ≠ [] →
      computeAdjust fundResp ps = .ok adjust → adjust ≠ [] →
      (hedge_positions hSubmit hTs floatStr secret adjust).result
          = .ok (pre ++ none :: post) →
      (mainRun posResp fundResp hSubmit uSubmit hTs uTs floatStr secret).exitCode = 1 ∧
      (mainRun posResp fundResp hSubmit uSubmit hTs uTs
          floatStr secret).unwindSubmitted.length = pre.length) := by
  obtain ⟨hr, hl⟩ := unwindGo_error_at_none uSubmit uTs floatStr secret post pre 0 hpre
  refine ⟨hr, hl, ?_⟩
  intro posResp fundResp hSubmit hTs ps adjust hgp hps0 hadj hadj0 hhr
  unfold mainRun
  rw [hgp]
  simp [hps0, hadj, hadj0, hhr, unwind_positions, hr, hl]

/-- Witness for C10: a single selected LONG position whose hedge submission
fails, leaving `[None]`; the unwind pass raises at once, submits nothing, and
the run exits 1. -/
theorem unwind_raises_on_absent_entry_witness :
    (∀ x ∈ ([] : List (Option OrderResp)), x ≠ none) ∧
    (unwind_positions (fun _ _ => none) (fun _ => 0) (fun _ => "") "k"
        ([] ++ none :: [])).result = .error .typeError ∧
    (unwind_positions (fun _ _ => none) (fun _ => 0) (fun _ => "") "k"
        ([] ++ none :: [])).submitted.length = ([] : List (Option OrderResp)).length ∧
    ((mainRun (some [⟨"BTCUSDT", "LONG", some 1⟩]) (fun _ => some ⟨some (mkRat 1 1000)⟩)
        (fun _ _ => none) (fun _ _ => none) (fun _ => 0) (fun _ => 0)
        (fun _ => "") "k").exitCode = 1 ∧
      (mainRun (some [⟨"BTCUSDT", "LONG", some 1⟩]) (fun _ => some ⟨some (mkRat 1 1000)⟩)
        (fun _ _ => none) (fun _ _ => none) (fun _ => 0) (fun _ => 0)
        (fun _ => "") "k").unwindSubmitted.length = ([] : List (Option OrderResp)).length) := by
  obtain ⟨h1, h2, h3⟩ := unwind_raises_on_absent_entry (fun _ _ => none) (fun _ => 0)
    (fun _ => "") "k" [] [] (by intro x hx; cases hx)
  refine ⟨(by intro x hx; cases hx), h1, h2, ?_⟩
  exact h3 (some [⟨"BTCUSDT", "LONG", some 1⟩]) (fun _ => some ⟨some (mkRat 1 1000)⟩)
    (fun _ _ => none) (fun _ => 0) [⟨"BTCUSDT", "LONG", some 1⟩]
    [⟨"BTCUSDT", "LONG", some 1⟩] rfl (by simp) rfl (by simp) rfl

/-- C1 (code bug in `main`): when `get_funding_rate` returns absence for a
LONG or SHORT position's symbol, the loop body dereferences `None`
(`funding.get("lastFundingRate", 0)`) and raises AttributeError, so the whole
workflow aborts through the catch-all handler with exit code 1 — it does not
skip the position and continue as the spec requires. -/
theorem funding_absence_aborts_workflow :
    decideSelect none "LONG" = .error .attributeError ∧
    computeAdjust (fun _ => none) [⟨"BTCUSDT", "LONG", some 1⟩]
        = .error .attributeError ∧
    mainRun (some [⟨"BTCUSDT", "LONG", some 1⟩]) (fun _ => none)
      (fun _ _ => none) (fun _ _ => none) (fun _ => 0) (fun _ => 0)
      (fun _ => "") "k" = ⟨[], [], 1⟩ :=
  ⟨rfl, rfl, rfl⟩

end FundingHedge
